import Mathlib

/-!
Shallow embedding of the Return & Risk-Factor Pipeline of `app.py`
(Bond_Portfolio_Optimization_and_Immunization).

A pandas DataFrame is modelled as a `Table`: a list of column labels and a
list of rows, each row an index key paired with its list of rational values.
Dates are modelled as integers (`ℤ`), numeric cells as `ℚ`.

Each definition mirrors one pandas operation used in `load_data`
(src/app.py lines 22-56) or in the filtering/export code (lines 85-86 and
286-289).  Fallible pandas operations (column relabelling with a wrong
length, column selection with an unknown label) are modelled with
`Except` / `Option`.
-/

namespace BondApp

/-- A DataFrame with index type `ι`: column labels plus rows of
`(index key, cell values)`.  Cell values are rationals. -/
structure Table (ι : Type) where
  cols : List String
  rows : List (ι × List ℚ)
deriving DecidableEq

/-- Date-indexed table (KeyRates, Assets, returns tables). -/
abbrev DTable := Table ℤ

/-- Asset-identifier-indexed table (durations, convexity). -/
abbrev ATable := Table String

/-- The index of a table: the list of row keys (pandas `df.index`). -/
def Table.idx {ι : Type} (t : Table ι) : List ι := t.rows.map Prod.fst

/-- Well-formedness: every row has exactly one value per column label. -/
def Table.Wf {ι : Type} (t : Table ι) : Prop :=
  ∀ r ∈ t.rows, r.2.length = t.cols.length

/-- Row lookup by index key (pandas `df.loc[i]` for a single label):
the first row whose key equals `i`, if any. -/
def rowAt {ι : Type} [DecidableEq ι] (t : Table ι) (i : ι) : Option (List ℚ) :=
  (t.rows.find? (fun r => decide (r.1 = i))).map Prod.snd

/-- Embeds `pd.read_excel("KeyRates.xlsx", ...) / 100` — every cell divided by 100
(rate levels arrive in percentage points). -/
def div100 (t : DTable) : DTable :=
  ⟨t.cols, t.rows.map (fun r => (r.1, r.2.map (fun v => v / 100)))⟩

/-- Embeds `pd.merge(left=assets, right=kr, how="inner", on="Date").index` —
the dates present in both tables, in the order of the left (assets) table. -/
def commonDates (assets kr : DTable) : List ℤ :=
  assets.idx.filter (fun d => decide (d ∈ kr.idx))

/-- Embeds `t.loc[dates, :]` — reindex `t` by the given date list (every date of
`ds` is expected to occur in `t`; absent dates contribute no row). -/
def reindex (t : DTable) (ds : List ℤ) : DTable :=
  ⟨t.cols, ds.filterMap (fun d => (rowAt t d).map (fun v => (d, v)))⟩

/-- Comparison of date-indexed rows by ascending date. -/
def keyLE (a b : ℤ × List ℚ) : Prop := a.1 ≤ b.1

/-- Comparison of date-indexed rows by descending date. -/
def keyGE (a b : ℤ × List ℚ) : Prop := b.1 ≤ a.1

instance : DecidableRel keyLE := fun a b => inferInstanceAs (Decidable (a.1 ≤ b.1))

instance : DecidableRel keyGE := fun a b => inferInstanceAs (Decidable (b.1 ≤ a.1))

instance : IsTotal (ℤ × List ℚ) keyLE := ⟨fun a b => le_total a.1 b.1⟩

instance : IsTrans (ℤ × List ℚ) keyLE := ⟨fun _ _ _ h h2 => le_trans h h2⟩

instance : IsTotal (ℤ × List ℚ) keyGE := ⟨fun a b => le_total b.1 a.1⟩

instance : IsTrans (ℤ × List ℚ) keyGE := ⟨fun _ _ _ h h2 => le_trans h2 h⟩

/-- Embeds `t.sort_index()` — rows sorted by ascending date (stable). -/
def sortAsc (t : DTable) : DTable := ⟨t.cols, t.rows.insertionSort keyLE⟩

/-- Embeds `t.sort_index(ascending=False)` — rows sorted by descending date. -/
def sortDesc (t : DTable) : DTable := ⟨t.cols, t.rows.insertionSort keyGE⟩

/-- Shared row shape of `.diff()` and `.pct_change()` followed by
`.dropna()`: each row is combined cell-wise with its predecessor, and the
first row (which has no predecessor) is dropped. -/
def diffRows (op : ℚ → ℚ → ℚ) (rows : List (ℤ × List ℚ)) : List (ℤ × List ℚ) :=
  (rows.tail.zip rows).map (fun p => (p.1.1, List.zipWith op p.1.2 p.2.2))

/-- A differencing transform on a table: combine consecutive rows with
`op`, drop the first row, keep the column labels. -/
def diffTable (op : ℚ → ℚ → ℚ) (t : DTable) : DTable :=
  ⟨t.cols, diffRows op t.rows⟩

/-- Embeds `t.diff().dropna()` — absolute first difference of consecutive rows. -/
def diffAbs : DTable → DTable :=
  diffTable (fun cur prev => cur - prev)

/-- Embeds `t.pct_change().dropna()` — relative (percentage) change of
consecutive rows.  (Division by a zero previous value is outside the
model; the claims never exercise it.) -/
def pctChange : DTable → DTable :=
  diffTable (fun cur prev => cur / prev - 1)

/-- The table `kr_returns` as built on src/app.py lines 44-45, starting from the
already-divided rate table and the common date list. -/
def krReturnsOf (kr assets : DTable) : DTable :=
  sortDesc (diffAbs (sortAsc (reindex kr (commonDates assets kr))))

/-- The table `assets_returns` as built on src/app.py lines 47-48. -/
def assetsReturnsOf (kr assets : DTable) : DTable :=
  sortDesc (pctChange (sortAsc (reindex assets (commonDates assets kr))))

/-- A table whose cells may be missing (`NaN`), as produced by an
axis-1 `pd.concat` over non-identical row indexes. -/
structure OTable where
  cols : List String
  rows : List (String × List (Option ℚ))
deriving DecidableEq

/-- The index of an `OTable`. -/
def OTable.idx (t : OTable) : List String := t.rows.map Prod.fst

/-- Row-index union produced by `pd.concat(..., axis=1)` (outer join):
the left index followed by the right keys not already present. -/
def unionIdx (d c : ATable) : List String :=
  d.idx ++ c.idx.filter (fun a => decide (a ∉ d.idx))

/-- One operand block of the axis-1 concat: the row values scaled by `k`
when the asset has a row in the operand table, and a block of `NaN`
(`none`) of the operand width when it does not. -/
def scaledRow (width : ℕ) (k : ℚ) (r : Option (List ℚ)) : List (Option ℚ) :=
  match r with
  | some vals => vals.map (fun v => some (k * v))
  | none => List.replicate width none

/-- One row of `pd.concat([-1.0 * durations, 0.5 * convexity], axis=1)`:
the negated duration row followed by the halved convexity row, with `NaN`
(`none`) where the asset is absent from one of the two tables. -/
def loadingsRow (d c : ATable) (a : String) : List (Option ℚ) :=
  scaledRow d.cols.length (-1) (rowAt d a) ++ scaledRow c.cols.length 0.5 (rowAt c a)

/-- Embeds `loadings = pd.concat([-1.0 * durations, 0.5 * convexity], axis=1)`
(src/app.py line 50). -/
def mkLoadings (d c : ATable) : OTable :=
  ⟨d.cols ++ c.cols, (unionIdx d c).map (fun a => (a, loadingsRow d c a))⟩

/-- Embeds `X = pd.concat([kr_returns, kr_returns ** 2], axis=1)` (lines 51-52).
Both operands share the same index by construction, so the axis-1 concat
is a row-wise append of each row with its element-wise square. -/
def designX (krR : DTable) : DTable :=
  ⟨krR.cols ++ krR.cols, krR.rows.map (fun r => (r.1, r.2 ++ r.2.map (fun v => v * v)))⟩

/-- The error outcomes of `load_data`. -/
inductive LoadError where
  | missingFiles (files : List String)
  | lengthMismatch
  | keyError
deriving DecidableEq

/-- Embeds `X.columns = loadings.columns` (line 53) — pandas raises when the new
label list does not match the column count. -/
def relabel (t : DTable) (newCols : List String) : Except LoadError DTable :=
  if t.cols.length = newCols.length then .ok ⟨newCols, t.rows⟩
  else .error .lengthMismatch

/-- Embeds `t[sel]` and `t.loc[:, sel]` — column selection by a list of labels;
pandas raises a KeyError when a label is unknown (modelled as `none`).
For well-formed tables `indexOf` stays in bounds, so the `getD` default
is never read. -/
def selectCols (t : DTable) (sel : List String) : Option DTable :=
  if sel.all (fun s => decide (s ∈ t.cols)) then
    some ⟨sel, t.rows.map (fun r => (r.1, sel.map (fun s => r.2.getD (t.cols.indexOf s) 0)))⟩
  else none

/-- Embeds `filtered_Y = Y.loc[mask, selected_assets]` where
`mask = (Y.index.date >= date_range[0]) & (Y.index.date <= date_range[1])`
(src/app.py lines 85-86): rows restricted to the inclusive date window,
columns restricted to the selected assets. -/
def filtered_Y (Y : DTable) (sel : List String) (lo hi : ℤ) : Option DTable :=
  selectCols ⟨Y.cols, Y.rows.filter (fun r => decide (lo ≤ r.1 ∧ r.1 ≤ hi))⟩ sel

/-- The four input files checked on src/app.py line 24. -/
def requiredFiles : List String :=
  ["KeyRates.xlsx", "Assets.xlsx", "durations.xlsx", "convexity.xlsx"]

/-- The pipeline inputs: the directory contents (`os.listdir`) plus the
parsed contents of the four spreadsheets. -/
structure Inputs where
  present : List String
  kr : DTable
  assets : DTable
  durations : ATable
  convexity : ATable
deriving DecidableEq

/-- The tuple returned by `load_data` (src/app.py line 56). -/
structure Outputs where
  kr_returns : DTable
  assets_returns : DTable
  durations : ATable
  convexity : ATable
  loadings : OTable
  X : DTable
  Y : DTable
deriving DecidableEq

/-- Embeds `load_data` (src/app.py lines 22-56): check the four required files,
divide the rate levels by 100, inner-join the date indexes, build the two
return tables, the loadings, the design matrix `X` and the target `Y`. -/
def load_data (inp : Inputs) : Except LoadError Outputs :=
  let missing := requiredFiles.filter (fun f => decide (f ∉ inp.present))
  if missing.isEmpty then
    let kr := div100 inp.kr
    let kr_returns := krReturnsOf kr inp.assets
    let assets_returns := assetsReturnsOf kr inp.assets
    let loadings := mkLoadings inp.durations inp.convexity
    match relabel (designX kr_returns) loadings.cols with
    | .error e => .error e
    | .ok X =>
      match selectCols assets_returns loadings.idx with
      | none => .error .keyError
      | some Y =>
        .ok ⟨kr_returns, assets_returns, inp.durations, inp.convexity, loadings, X, Y⟩
  else .error (.missingFiles missing)

/-- Embeds `filtered_Y.to_csv()` (src/app.py line 287): header is the index label
followed by the column labels; the body rows carry the cell values exactly
as stored (no reformatting). -/
def csv_export (t : DTable) : List String × List (ℤ × List ℚ) :=
  ("Date" :: t.cols, t.rows)

/-- Modelled from the spec: "a downloadable comma-separated export of
FilteredReturns, header = date index + selected asset identifiers,
percentage-formatted values."  Percentage formatting renders a fraction
`v` as the percentage `100 × v`; the code for this (a percent-styled
`to_csv`) does not exist in src/, so this definition follows the spec
wording for comparison with `csv_export`. -/
def csv_export_pct_spec (t : DTable) : List String × List (ℤ × List ℚ) :=
  ("Date" :: t.cols, t.rows.map (fun r => (r.1, r.2.map (fun v => 100 * v))))

/-- Rounding to 6 decimal places, as used by the spec example
"AssetReturns = [0.02, -0.029412] (rounded to 6 places)". -/
def round6 (q : ℚ) : ℚ := (round (q * 1000000) : ℚ) / 1000000

/-- Concrete input for the C7 witness: all four files present, one shared
date, one asset with one duration and one convexity row. -/
def inpC7 : Inputs :=
  ⟨requiredFiles, ⟨["r"], [(1, [100])]⟩, ⟨["A"], [(1, [10])]⟩,
    ⟨["rd"], [("A", [1])]⟩, ⟨["rc"], [("A", [2])]⟩⟩

/-- The output tuple `load_data` produces on `inpC7` (a single common
date leaves both return tables empty of rows). -/
def outC7 : Outputs :=
  ⟨⟨["r"], []⟩, ⟨["A"], []⟩, ⟨["rd"], [("A", [1])]⟩, ⟨["rc"], [("A", [2])]⟩,
    ⟨["rd", "rc"], [("A", [some (-1), some 1])]⟩, ⟨["rd", "rc"], []⟩, ⟨["A"], []⟩⟩

/-! ### Helper lemmas -/

lemma div100_cols (t : DTable) : (div100 t).cols = t.cols := rfl

lemma krReturnsOf_cols (kr assets : DTable) : (krReturnsOf kr assets).cols = kr.cols := rfl

lemma designX_cols_length (t : DTable) : (designX t).cols.length = 2 * t.cols.length := by
  simp [designX, two_mul]

lemma mkLoadings_cols_length (d c : ATable) :
    (mkLoadings d c).cols.length = d.cols.length + c.cols.length := by
  simp [mkLoadings]

lemma mkLoadings_idx (d c : ATable) : (mkLoadings d c).idx = unionIdx d c := by
  show List.map Prod.fst ((unionIdx d c).map fun a => (a, loadingsRow d c a)) = unionIdx d c
  rw [List.map_map]
  have h : ∀ a ∈ unionIdx d c, (Prod.fst ∘ fun a => (a, loadingsRow d c a)) a = id a :=
    fun a _ => rfl
  rw [List.map_congr_left h, List.map_id]

lemma mem_unionIdx (d c : ATable) (a : String) :
    a ∈ unionIdx d c ↔ (a ∈ d.idx ∨ a ∈ c.idx) := by
  simp only [unionIdx, List.mem_append, List.mem_filter, decide_eq_true_eq]
  by_cases h : a ∈ d.idx <;> simp [h]

/-! ### C3: concrete differencing example -/

/-- C3.  RateReturns is the absolute first difference of the rate levels
(the rate input having been divided by 100 on load) and AssetReturns is
the relative percentage change of the prices: with one tenor at levels
2.00, 2.10, 1.95 percentage points on dates 1, 2, 3, RateReturns in
ascending date order is [0.0010, -0.0015]; with prices 100, 102, 99,
AssetReturns in ascending date order is [1/50, -1/34], which round to
6 places as [0.02, -0.029412]. -/
theorem rate_and_asset_returns_example :
    (krReturnsOf (div100 (Table.mk ["r10"] [((1:ℤ), [(2:ℚ)]), (2, [21/10]), (3, [39/20])]))
        (Table.mk ["A1"] [((1:ℤ), [(100:ℚ)]), (2, [102]), (3, [99])])).rows.reverse
      = [((2:ℤ), [(0.0010:ℚ)]), (3, [-0.0015])] ∧
    (assetsReturnsOf (div100 (Table.mk ["r10"] [((1:ℤ), [(2:ℚ)]), (2, [21/10]), (3, [39/20])]))
        (Table.mk ["A1"] [((1:ℤ), [(100:ℚ)]), (2, [102]), (3, [99])])).rows.reverse
      = [((2:ℤ), [(1:ℚ)/50]), (3, [-1/34])] ∧
    round6 ((1:ℚ)/50) = 0.02 ∧ round6 (-1/34) = -0.029412 := by
  refine ⟨?_, ?_, ?_, ?_⟩ <;>
    norm_num [krReturnsOf, assetsReturnsOf, div100, commonDates, Table.idx, reindex, rowAt,
      sortAsc, sortDesc, diffAbs, pctChange, diffTable, diffRows, keyLE, keyGE,
      List.insertionSort, List.orderedInsert, List.find?, List.filterMap, List.filter,
      List.zipWith, round6, round_eq]

/-! ### C6: missing input files -/

/-- C6.  When any of the four required input files is absent, `load_data`
fails with a missing-input error whose file list contains exactly the
absent required files, and no output tuple is produced. -/
theorem load_data_missing_files (inp : Inputs)
    (h : ∃ f ∈ requiredFiles, f ∉ inp.present) :
    load_data inp =
      .error (.missingFiles (requiredFiles.filter (fun f => decide (f ∉ inp.present)))) ∧
    (∀ f, f ∈ requiredFiles.filter (fun f => decide (f ∉ inp.present)) ↔
      (f ∈ requiredFiles ∧ f ∉ inp.present)) := by
  obtain ⟨f, hf, hfp⟩ := h
  have hmem : f ∈ requiredFiles.filter (fun f => decide (f ∉ inp.present)) :=
    List.mem_filter.2 ⟨hf, by simpa using hfp⟩
  have hne : (requiredFiles.filter (fun f => decide (f ∉ inp.present))).isEmpty ≠ true := by
    intro he
    rw [List.isEmpty_iff] at he
    rw [he] at hmem
    exact List.not_mem_nil f hmem
  constructor
  · simp only [load_data]
    rw [if_neg hne]
  · intro g
    simp [List.mem_filter]

/-- Witness for C6, the 3-of-4 scenario: with only KeyRates.xlsx,
Assets.xlsx and durations.xlsx present, `load_data` fails with a
missing-input error naming exactly convexity.xlsx. -/
theorem load_data_missing_files_witness :
    load_data ⟨["KeyRates.xlsx", "Assets.xlsx", "durations.xlsx"],
        ⟨[], []⟩, ⟨[], []⟩, ⟨[], []⟩, ⟨[], []⟩⟩ =
      .error (.missingFiles ["convexity.xlsx"]) := by
  have h := load_data_missing_files
    ⟨["KeyRates.xlsx", "Assets.xlsx", "durations.xlsx"], ⟨[], []⟩, ⟨[], []⟩, ⟨[], []⟩, ⟨[], []⟩⟩
    ⟨"convexity.xlsx", by simp [requiredFiles], by simp⟩
  have h1 := h.1
  simpa [requiredFiles] using h1

/-! ### C9: determinism of the pipeline -/

/-- C9.  The load-and-derive step is a deterministic, side-effect-free
function of the four input tables: two runs on equal inputs produce
equal derived tables. -/
theorem load_data_deterministic (i1 i2 : Inputs) (h : i1 = i2) :
    load_data i1 = load_data i2 := by
  rw [h]

/-- Witness for C9 at a concrete input. -/
theorem load_data_deterministic_witness :
    load_data ⟨requiredFiles, ⟨["r"], [(1, [100])]⟩, ⟨["A"], [(1, [10])]⟩,
        ⟨["rd"], [("A", [1])]⟩, ⟨["rc"], [("A", [2])]⟩⟩ =
      load_data ⟨requiredFiles, ⟨["r"], [(1, [100])]⟩, ⟨["A"], [(1, [10])]⟩,
        ⟨["rd"], [("A", [1])]⟩, ⟨["rc"], [("A", [2])]⟩⟩ :=
  load_data_deterministic _ _ rfl

/-! ### C10: tenor-count compatibility between rate curve and loadings -/

/-- C10.  The pipeline completes only if twice the rate-curve tenor count
equals the Loadings column count: when the counts differ, no output is
produced, and (with all files present) `load_data` fails at the
column-relabel step with a length-mismatch error, a failure mode distinct
from the missing-file error. -/
theorem load_data_tenor_mismatch (inp : Inputs)
    (hne : 2 * inp.kr.cols.length ≠
      inp.durations.cols.length + inp.convexity.cols.length) :
    (∀ out, load_data inp ≠ .ok out) ∧
    ((requiredFiles.filter (fun f => decide (f ∉ inp.present))).isEmpty = true →
      load_data inp = .error .lengthMismatch) := by
  have hrel : relabel (designX (krReturnsOf (div100 inp.kr) inp.assets))
      (mkLoadings inp.durations inp.convexity).cols = .error .lengthMismatch := by
    unfold relabel
    rw [if_neg]
    rw [designX_cols_length, mkLoadings_cols_length, krReturnsOf_cols, div100_cols]
    exact hne
  by_cases hm : (requiredFiles.filter (fun f => decide (f ∉ inp.present))).isEmpty = true
  · have hload : load_data inp = .error .lengthMismatch := by
      simp only [load_data]
      rw [if_pos hm, hrel]
    exact ⟨fun out hout => by rw [hload] at hout; exact Except.noConfusion hout,
      fun _ => hload⟩
  · have hload : load_data inp =
        .error (.missingFiles (requiredFiles.filter (fun f => decide (f ∉ inp.present)))) := by
      simp only [load_data]
      rw [if_neg hm]
    exact ⟨fun out hout => by rw [hload] at hout; exact Except.noConfusion hout,
      fun habs => absurd habs hm⟩

/-- Witness for C10: one rate-curve tenor but a one-column duration table
and a two-column convexity table (2 × 1 ≠ 1 + 2), all files present. -/
theorem load_data_tenor_mismatch_witness :
    (∀ out, load_data ⟨requiredFiles, ⟨["r"], [(1, [100])]⟩, ⟨["A"], [(1, [10])]⟩,
        ⟨["rd"], [("A", [1])]⟩, ⟨["rc1", "rc2"], [("A", [2, 3])]⟩⟩ ≠ .ok out) ∧
    ((requiredFiles.filter
        (fun f => decide (f ∉ (⟨requiredFiles, ⟨["r"], [(1, [100])]⟩, ⟨["A"], [(1, [10])]⟩,
          ⟨["rd"], [("A", [1])]⟩, ⟨["rc1", "rc2"], [("A", [2, 3])]⟩⟩ : Inputs).present))).isEmpty
        = true →
      load_data ⟨requiredFiles, ⟨["r"], [(1, [100])]⟩, ⟨["A"], [(1, [10])]⟩,
        ⟨["rd"], [("A", [1])]⟩, ⟨["rc1", "rc2"], [("A", [2, 3])]⟩⟩ =
        .error .lengthMismatch) :=
  load_data_tenor_mismatch _ (by simp)

/-! ### C1: loadings cell values -/

lemma rowAt_length {ι : Type} [DecidableEq ι] {t : Table ι} {i : ι} {r : List ℚ}
    (hwf : t.Wf) (h : rowAt t i = some r) : r.length = t.cols.length := by
  unfold rowAt at h
  cases hfind : t.rows.find? (fun p => decide (p.1 = i)) with
  | none => rw [hfind] at h; exact Option.noConfusion h
  | some p =>
    rw [hfind] at h
    have hmem := List.mem_of_find?_eq_some hfind
    have : p.2 = r := Option.some_injective _ h
    rw [← this]
    exact hwf p hmem

lemma scaledRow_some {w : ℕ} {k : ℚ} {r : Option (List ℚ)} {j : ℕ} {v : ℚ}
    (h : (scaledRow w k r)[j]? = some (some v)) :
    ∃ wv, r.bind (fun vals => vals[j]?) = some wv ∧ v = k * wv := by
  cases r with
  | none =>
    exfalso
    rw [scaledRow, List.getElem?_replicate] at h
    by_cases hj : j < w
    · rw [if_pos hj] at h; exact Option.noConfusion (Option.some_injective _ h)
    · rw [if_neg hj] at h; exact Option.noConfusion h
  | some vals =>
    rw [scaledRow, List.getElem?_map] at h
    cases hv : vals[j]? with
    | none => rw [hv] at h; exact absurd h (by simp)
    | some wv =>
      rw [hv] at h
      refine ⟨wv, by simp [hv], ?_⟩
      have := Option.some_injective _ h
      exact (Option.some_injective _ this).symm

/-- C1.  Every (non-missing) value of the Loadings table equals
`-1.0 ×` the corresponding DurationMatrix cell (in the first block of
columns) or `0.5 ×` the corresponding ConvexityMatrix cell (in the
second block); the multipliers are the fixed constants of
src/app.py line 50. -/
theorem loadings_values_from_sources (d c : ATable) (hd : d.Wf) (a : String) (j : ℕ) (v : ℚ)
    (h : (loadingsRow d c a)[j]? = some (some v)) :
    (∃ w, (rowAt d a).bind (fun r => r[j]?) = some w ∧ v = -1 * w) ∨
    (∃ w, (rowAt c a).bind (fun r => r[j - d.cols.length]?) = some w ∧ v = 0.5 * w) := by
  unfold loadingsRow at h
  by_cases hj : j < (scaledRow d.cols.length (-1) (rowAt d a)).length
  · rw [List.getElem?_append, if_pos hj] at h
    exact Or.inl (scaledRow_some h)
  · rw [List.getElem?_append_right (le_of_not_lt hj)] at h
    have hlen : (scaledRow d.cols.length (-1) (rowAt d a)).length = d.cols.length := by
      cases hda : rowAt d a with
      | some r => simp [scaledRow, rowAt_length hd hda]
      | none => simp [scaledRow]
    rw [hlen] at h
    exact Or.inr (scaledRow_some h)

/-- Witness for C1: a one-tenor duration row `[3]` and convexity row `[4]`
for asset A; the convexity-block cell of the Loadings row holds `2 = 0.5 × 4`. -/
theorem loadings_values_from_sources_witness :
    (∃ w, (rowAt (⟨["t"], [("A", [3])]⟩ : ATable) "A").bind (fun r => r[1]?) = some w ∧
        (2:ℚ) = -1 * w) ∨
    (∃ w, (rowAt (⟨["t"], [("A", [4])]⟩ : ATable) "A").bind
        (fun r => r[1 - (⟨["t"], [("A", [3])]⟩ : ATable).cols.length]?) = some w ∧
        (2:ℚ) = 0.5 * w) :=
  loadings_values_from_sources ⟨["t"], [("A", [3])]⟩ ⟨["t"], [("A", [4])]⟩
    (by intro r hr; simp only [List.mem_singleton] at hr; subst hr; rfl)
    "A" 1 2
    (by norm_num [loadingsRow, scaledRow, rowAt, List.find?])

/-! ### C2: loadings shape (columns and row set) -/

/-- Counterexample for C2 as stated: with a duration table holding only
asset A and a convexity table holding only asset B, the Loadings row set
is the union {A, B}, not the (empty) intersection — the axis-1 concat of
src/app.py line 50 outer-joins the row indexes. -/
theorem loadings_rows_not_intersection :
    ¬ (∀ a, a ∈ (mkLoadings ⟨["t"], [("A", [1])]⟩ ⟨["t"], [("B", [2])]⟩).idx ↔
        (a ∈ (⟨["t"], [("A", [1])]⟩ : ATable).idx ∧
         a ∈ (⟨["t"], [("B", [2])]⟩ : ATable).idx)) := by
  intro hcon
  have h1 := (hcon "A").1 (by simp [mkLoadings_idx, unionIdx, Table.idx])
  simp [Table.idx] at h1

/-- C2 amended.  For input duration and convexity tables sharing a tenor
count `n`, the Loadings table has exactly `2 × n` columns, and its row set
is the union of the asset-identifier sets of the two tables (which coincides
with the intersection exactly when the two identifier sets agree). -/
theorem loadings_shape (d c : ATable) (n : ℕ)
    (hdn : d.cols.length = n) (hcn : c.cols.length = n) :
    (mkLoadings d c).cols.length = 2 * n ∧
    ∀ a, (a ∈ (mkLoadings d c).idx ↔ (a ∈ d.idx ∨ a ∈ c.idx)) := by
  constructor
  · rw [mkLoadings_cols_length, hdn, hcn, two_mul]
  · intro a
    rw [mkLoadings_idx]
    exact mem_unionIdx d c a

/-- Witness for C2 amended at one-tenor tables. -/
theorem loadings_shape_witness :
    (mkLoadings ⟨["t"], [("A", [1])]⟩ ⟨["t"], [("B", [2])]⟩).cols.length = 2 * 1 ∧
    ∀ a, (a ∈ (mkLoadings ⟨["t"], [("A", [1])]⟩ ⟨["t"], [("B", [2])]⟩).idx ↔
      (a ∈ (⟨["t"], [("A", [1])]⟩ : ATable).idx ∨
       a ∈ (⟨["t"], [("B", [2])]⟩ : ATable).idx)) :=
  loadings_shape ⟨["t"], [("A", [1])]⟩ ⟨["t"], [("B", [2])]⟩ 1 rfl rfl

/-! ### C8: the CSV export of FilteredReturns -/

/-- Counterexample for C8 as stated: the download handler writes
`filtered_Y.to_csv()` (src/app.py line 287) with the stored decimal
fractions; for a filtered table holding the return 1/50 the exported
body differs from the percentage-formatted body (0.02 vs 2). -/
theorem csv_export_values_not_percent :
    ∃ t, filtered_Y ⟨["A1"], [((0:ℤ), [(1:ℚ)/50])]⟩ ["A1"] 0 0 = some t ∧
      csv_export t ≠ csv_export_pct_spec t := by
  refine ⟨⟨["A1"], [((0:ℤ), [(1:ℚ)/50])]⟩, ?_, ?_⟩
  · norm_num [filtered_Y, selectCols, List.filter, List.all, List.indexOf_cons_self]
  · intro hcon
    have h2 := congrArg Prod.snd hcon
    norm_num [csv_export, csv_export_pct_spec] at h2

/-- C8 amended.  The downloadable comma-separated export of
FilteredReturns has a header consisting of the date index label followed
by the selected asset identifiers, and its body carries the cell values
exactly as stored (raw decimal fractions); the percentage formatting
applies only to the on-screen styled tables, not to the export. -/
theorem csv_export_shape (Y : DTable) (sel : List String) (lo hi : ℤ) (t : DTable)
    (h : filtered_Y Y sel lo hi = some t) :
    (csv_export t).1 = "Date" :: sel ∧ (csv_export t).2 = t.rows := by
  refine ⟨?_, rfl⟩
  unfold filtered_Y selectCols at h
  by_cases hall : sel.all (fun s => decide (s ∈ Y.cols)) = true
  · rw [if_pos hall] at h
    have := Option.some_injective _ h
    rw [← this]
    rfl
  · rw [if_neg hall] at h
    exact Option.noConfusion h

/-- Witness for C8 amended at a concrete filtered table. -/
theorem csv_export_shape_witness :
    (csv_export ⟨["A1"], [((0:ℤ), [(1:ℚ)/50])]⟩).1 = "Date" :: ["A1"] ∧
    (csv_export ⟨["A1"], [((0:ℤ), [(1:ℚ)/50])]⟩).2 =
      (⟨["A1"], [((0:ℤ), [(1:ℚ)/50])]⟩ : DTable).rows :=
  csv_export_shape ⟨["A1"], [((0:ℤ), [(1:ℚ)/50])]⟩ ["A1"] 0 0
    ⟨["A1"], [((0:ℤ), [(1:ℚ)/50])]⟩
    (by norm_num [filtered_Y, selectCols, List.filter, List.all, List.indexOf_cons_self])

/-! ### C5: filtering is a pure projection -/

lemma map_getD_indexOf (cols : List String) (r : List ℚ)
    (hnd : cols.Nodup) (hlen : r.length = cols.length) :
    cols.map (fun s => r.getD (cols.indexOf s) 0) = r := by
  induction cols generalizing r with
  | nil =>
    cases r with
    | nil => rfl
    | cons v vs => simp at hlen
  | cons cHead cs ih =>
    cases r with
    | nil => simp at hlen
    | cons v vs =>
      simp only [List.map_cons]
      have hHead : (v :: vs).getD ((cHead :: cs).indexOf cHead) 0 = v := by
        rw [List.indexOf_cons_self]
        rfl
      rw [hHead]
      have hstep : ∀ s ∈ cs,
          (v :: vs).getD ((cHead :: cs).indexOf s) 0 = vs.getD (cs.indexOf s) 0 := by
        intro s hs
        have hne : cHead ≠ s := by
          intro he
          exact (List.nodup_cons.1 hnd).1 (he ▸ hs)
        rw [List.indexOf_cons_ne _ hne]
        rfl
      rw [List.map_congr_left hstep]
      rw [ih vs (List.nodup_cons.1 hnd).2 (by simpa using hlen)]

lemma selectCols_eq_some {t : DTable} {sel : List String} {u : DTable}
    (h : selectCols t sel = some u) :
    u.cols = sel ∧ (∀ s ∈ sel, s ∈ t.cols) ∧
    u.rows = t.rows.map (fun r => (r.1, sel.map (fun s => r.2.getD (t.cols.indexOf s) 0))) := by
  unfold selectCols at h
  by_cases hall : sel.all (fun s => decide (s ∈ t.cols)) = true
  · rw [if_pos hall] at h
    have hu := (Option.some_injective _ h).symm
    subst hu
    refine ⟨rfl, ?_, rfl⟩
    intro s hs
    have := List.all_eq_true.1 hall s hs
    exact of_decide_eq_true this
  · rw [if_neg hall] at h
    exact Option.noConfusion h

/-- C5.  FilteredReturns is a pure projection of TargetReturns: for a
selection whose labels occur in `Y`, the result holds exactly the rows
whose date lies in the inclusive window and exactly the selected columns,
cell values taken unchanged from `Y`; selecting all columns over a window
containing every date reproduces `Y` exactly; and an empty selection
yields an empty table rather than an error. -/
theorem filtered_returns_projection (Y : DTable) (hwf : Y.Wf) (hnd : Y.cols.Nodup) :
    (∀ sel lo hi, (∀ s ∈ sel, s ∈ Y.cols) →
      ∃ t, filtered_Y Y sel lo hi = some t ∧ t.cols = sel ∧
        (∀ d vals, (d, vals) ∈ t.rows ↔
          ∃ yvals, (d, yvals) ∈ Y.rows ∧ lo ≤ d ∧ d ≤ hi ∧
            vals = sel.map (fun s => yvals.getD (Y.cols.indexOf s) 0))) ∧
    (∀ lo hi, (∀ r ∈ Y.rows, lo ≤ r.1 ∧ r.1 ≤ hi) →
      filtered_Y Y Y.cols lo hi = some Y) ∧
    (∀ lo hi, ∃ t, filtered_Y Y [] lo hi = some t ∧ t.cols = [] ∧
      ∀ r ∈ t.rows, r.2 = []) := by
  refine ⟨?_, ?_, ?_⟩
  · intro sel lo hi hsel
    have hall : sel.all (fun s => decide (s ∈ Y.cols)) = true :=
      List.all_eq_true.2 (fun s hs => decide_eq_true (hsel s hs))
    refine ⟨_, by unfold filtered_Y selectCols; rw [if_pos hall], rfl, ?_⟩
    intro d vals
    constructor
    · intro hmem
      obtain ⟨r, hr, hproj⟩ := List.mem_map.1 hmem
      have hfil := List.mem_filter.1 hr
      have hcond := of_decide_eq_true hfil.2
      obtain ⟨hd, hvals⟩ := Prod.mk.injEq _ _ _ _ ▸ hproj
      refine ⟨r.2, ?_, ?_, ?_, hvals.symm⟩
      · rw [← hd]; exact (Prod.mk.eta (p := r)) ▸ hfil.1
      · rw [← hd]; exact hcond.1
      · rw [← hd]; exact hcond.2
    · rintro ⟨yvals, hmem, hlo, hhi, hvals⟩
      refine List.mem_map.2 ⟨(d, yvals), ?_, ?_⟩
      · exact List.mem_filter.2 ⟨hmem, decide_eq_true ⟨hlo, hhi⟩⟩
      · rw [hvals]
  · intro lo hi hall
    have hfil : Y.rows.filter (fun r => decide (lo ≤ r.1 ∧ r.1 ≤ hi)) = Y.rows :=
      List.filter_eq_self.2 (fun r hr => decide_eq_true (hall r hr))
    have hallc : Y.cols.all (fun s => decide (s ∈ Y.cols)) = true :=
      List.all_eq_true.2 (fun s hs => decide_eq_true hs)
    unfold filtered_Y selectCols
    simp only [hfil]
    rw [if_pos hallc]
    have hrows : Y.rows.map
        (fun r => (r.1, Y.cols.map (fun s => r.2.getD (Y.cols.indexOf s) 0))) = Y.rows := by
      have : ∀ r ∈ Y.rows,
          (r.1, Y.cols.map (fun s => r.2.getD (Y.cols.indexOf s) 0)) = id r := by
        intro r hr
        rw [map_getD_indexOf Y.cols r.2 hnd (hwf r hr)]
        rfl
      rw [List.map_congr_left this, List.map_id]
    rw [hrows]
  · intro lo hi
    refine ⟨_, rfl, rfl, ?_⟩
    intro r hr
    obtain ⟨p, _, hproj⟩ := List.mem_map.1 hr
    rw [← hproj]
    rfl

/-- Witness for C5 at a one-column, one-row table. -/
theorem filtered_returns_projection_witness :
    (∀ sel lo hi, (∀ s ∈ sel, s ∈ (⟨["A1"], [((1:ℤ), [(5:ℚ)])]⟩ : DTable).cols) →
      ∃ t, filtered_Y ⟨["A1"], [((1:ℤ), [(5:ℚ)])]⟩ sel lo hi = some t ∧ t.cols = sel ∧
        (∀ d vals, (d, vals) ∈ t.rows ↔
          ∃ yvals, (d, yvals) ∈ (⟨["A1"], [((1:ℤ), [(5:ℚ)])]⟩ : DTable).rows ∧
            lo ≤ d ∧ d ≤ hi ∧
            vals = sel.map
              (fun s => yvals.getD ((⟨["A1"], [((1:ℤ), [(5:ℚ)])]⟩ : DTable).cols.indexOf s) 0))) ∧
    (∀ lo hi, (∀ r ∈ (⟨["A1"], [((1:ℤ), [(5:ℚ)])]⟩ : DTable).rows, lo ≤ r.1 ∧ r.1 ≤ hi) →
      filtered_Y ⟨["A1"], [((1:ℤ), [(5:ℚ)])]⟩
        (⟨["A1"], [((1:ℤ), [(5:ℚ)])]⟩ : DTable).cols lo hi =
        some ⟨["A1"], [((1:ℤ), [(5:ℚ)])]⟩) ∧
    (∀ lo hi, ∃ t, filtered_Y ⟨["A1"], [((1:ℤ), [(5:ℚ)])]⟩ [] lo hi = some t ∧
      t.cols = [] ∧ ∀ r ∈ t.rows, r.2 = []) :=
  filtered_returns_projection ⟨["A1"], [((1:ℤ), [(5:ℚ)])]⟩
    (by intro r hr; simp only [List.mem_singleton] at hr; subst hr; rfl)
    (List.nodup_singleton "A1")

/-! ### C7: the target returns are the asset returns restricted to Loadings -/

lemma assetsReturnsOf_cols (kr assets : DTable) :
    (assetsReturnsOf kr assets).cols = assets.cols := rfl

/-- C7.  On every successful run, `Y` (TargetReturns) is exactly the
asset-returns table restricted to the asset identifiers present in
Loadings: its column list is the Loadings row index, every column is an
original asset identifier, and every column has a duration row or a
convexity row. -/
theorem target_returns_restriction (inp : Inputs) (out : Outputs)
    (h : load_data inp = .ok out) :
    out.Y.cols = (mkLoadings inp.durations inp.convexity).idx ∧
    selectCols out.assets_returns (mkLoadings inp.durations inp.convexity).idx = some out.Y ∧
    (∀ a ∈ out.Y.cols, a ∈ inp.assets.cols) ∧
    (∀ a ∈ out.Y.cols, a ∈ inp.durations.idx ∨ a ∈ inp.convexity.idx) := by
  simp only [load_data] at h
  by_cases hm : (requiredFiles.filter (fun f => decide (f ∉ inp.present))).isEmpty = true
  case neg =>
    rw [if_neg hm] at h
    exact absurd h (by simp)
  case pos =>
    rw [if_pos hm] at h
    cases hrel : relabel (designX (krReturnsOf (div100 inp.kr) inp.assets))
        (mkLoadings inp.durations inp.convexity).cols with
    | error e =>
      rw [hrel] at h
      exact absurd h (by simp)
    | ok X =>
      rw [hrel] at h
      cases hsel : selectCols (assetsReturnsOf (div100 inp.kr) inp.assets)
          (mkLoadings inp.durations inp.convexity).idx with
      | none =>
        rw [hsel] at h
        exact absurd h (by simp)
      | some Y =>
        rw [hsel] at h
        rw [Except.ok.injEq] at h
        subst h
        obtain ⟨hcols, hmemb, _⟩ := selectCols_eq_some hsel
        refine ⟨hcols, hsel, ?_, ?_⟩
        · intro a ha
          rw [hcols] at ha
          have := hmemb a ha
          rwa [assetsReturnsOf_cols] at this
        · intro a ha
          rw [hcols, mkLoadings_idx] at ha
          exact (mem_unionIdx _ _ a).1 ha

lemma load_data_inpC7 : load_data inpC7 = .ok outC7 := by
  norm_num [load_data, inpC7, outC7, requiredFiles, div100, commonDates, Table.idx,
    reindex, rowAt, sortAsc, sortDesc, diffAbs, pctChange, diffTable, diffRows,
    keyLE, keyGE, List.insertionSort, List.orderedInsert, mkLoadings, unionIdx,
    loadingsRow, scaledRow, relabel, designX, selectCols, OTable.idx,
    List.find?, List.filterMap, List.filter, krReturnsOf, assetsReturnsOf,
    List.indexOf_cons_self]

/-- Witness for C7 at `inpC7`. -/
theorem target_returns_restriction_witness :
    outC7.Y.cols = (mkLoadings inpC7.durations inpC7.convexity).idx ∧
    selectCols outC7.assets_returns (mkLoadings inpC7.durations inpC7.convexity).idx =
      some outC7.Y ∧
    (∀ a ∈ outC7.Y.cols, a ∈ inpC7.assets.cols) ∧
    (∀ a ∈ outC7.Y.cols, a ∈ inpC7.durations.idx ∨ a ∈ inpC7.convexity.idx) :=
  target_returns_restriction inpC7 outC7 load_data_inpC7

/-! ### C4: index properties of the derived return tables -/

lemma reindex_idx {t : DTable} : ∀ {ds : List ℤ}, (∀ d ∈ ds, d ∈ t.idx) →
    (reindex t ds).idx = ds := by
  intro ds
  induction ds with
  | nil => intro _; rfl
  | cons d rest ih =>
    intro h
    have hd : d ∈ t.idx := h d (List.mem_cons_self d rest)
    obtain ⟨r, hr, hfst⟩ := List.mem_map.1 hd
    have hsome : ∃ v, rowAt t d = some v := by
      unfold rowAt
      cases hfind : t.rows.find? (fun p => decide (p.1 = d)) with
      | some p => exact ⟨p.2, rfl⟩
      | none =>
        exfalso
        have hnone := List.find?_eq_none.1 hfind r hr
        simp only [decide_eq_true_eq] at hnone
        exact hnone hfst
    obtain ⟨v, hv⟩ := hsome
    show ((d :: rest).filterMap (fun x => (rowAt t x).map (fun w => (x, w)))).map Prod.fst
      = d :: rest
    rw [List.filterMap_cons, hv]
    simp only [Option.map_some', List.map_cons]
    congr 1
    exact ih (fun x hx => h x (List.mem_cons_of_mem _ hx))

lemma diffTable_idx (op : ℚ → ℚ → ℚ) (t : DTable) :
    (diffTable op t).idx = t.idx.tail := by
  show ((t.rows.tail.zip t.rows).map
      (fun p => (p.1.1, List.zipWith op p.1.2 p.2.2))).map Prod.fst
    = (t.rows.map Prod.fst).tail
  rw [List.map_map]
  have h1 : (Prod.fst ∘ fun p : (ℤ × List ℚ) × (ℤ × List ℚ) =>
      (p.1.1, List.zipWith op p.1.2 p.2.2)) = (fun p => p.1.1) := rfl
  rw [h1]
  have h2 : (fun p : (ℤ × List ℚ) × (ℤ × List ℚ) => p.1.1) = (Prod.fst ∘ Prod.fst) := rfl
  rw [h2, ← List.map_map]
  rw [List.map_fst_zip _ _ (by rw [List.length_tail]; exact Nat.sub_le _ _)]
  exact List.map_tail Prod.fst t.rows

lemma sortAsc_idx_perm (t : DTable) : List.Perm (sortAsc t).idx t.idx :=
  (List.perm_insertionSort keyLE t.rows).map Prod.fst

lemma sortDesc_idx_perm (t : DTable) : List.Perm (sortDesc t).idx t.idx :=
  (List.perm_insertionSort keyGE t.rows).map Prod.fst

lemma sortAsc_idx_sorted (t : DTable) :
    (sortAsc t).idx.Pairwise (fun a b : ℤ => a ≤ b) := by
  have h := List.sorted_insertionSort keyLE t.rows
  show ((t.rows.insertionSort keyLE).map Prod.fst).Pairwise (fun a b : ℤ => a ≤ b)
  rw [List.pairwise_map]
  exact h

lemma sortDesc_idx_sorted (t : DTable) :
    (sortDesc t).idx.Pairwise (fun a b : ℤ => b ≤ a) := by
  have h := List.sorted_insertionSort keyGE t.rows
  show ((t.rows.insertionSort keyGE).map Prod.fst).Pairwise (fun a b : ℤ => b ≤ a)
  rw [List.pairwise_map]
  exact h

lemma desc_pipeline_props (op : ℚ → ℚ → ℚ) (t : DTable) (ds : List ℤ)
    (hnd : ds.Nodup) (hsub : ∀ d ∈ ds, d ∈ t.idx) :
    (sortDesc (diffTable op (sortAsc (reindex t ds)))).idx.Pairwise (fun a b : ℤ => b < a) ∧
    (∀ dmin ∈ ds, (∀ d ∈ ds, dmin ≤ d) →
      dmin ∉ (sortDesc (diffTable op (sortAsc (reindex t ds)))).idx) ∧
    (∀ d ∈ (sortDesc (diffTable op (sortAsc (reindex t ds)))).idx, d ∈ ds) := by
  have hasc_perm : List.Perm (sortAsc (reindex t ds)).idx ds := by
    have h := sortAsc_idx_perm (reindex t ds)
    rwa [reindex_idx hsub] at h
  have hs_nodup : (sortAsc (reindex t ds)).idx.Nodup := hasc_perm.nodup_iff.2 hnd
  have hs_sorted := sortAsc_idx_sorted (reindex t ds)
  have hdiff : (diffTable op (sortAsc (reindex t ds))).idx
      = (sortAsc (reindex t ds)).idx.tail := diffTable_idx op _
  have hout_perm : List.Perm (sortDesc (diffTable op (sortAsc (reindex t ds)))).idx
      ((sortAsc (reindex t ds)).idx.tail) := by
    have h := sortDesc_idx_perm (diffTable op (sortAsc (reindex t ds)))
    rwa [hdiff] at h
  have htail_sub : ∀ d ∈ (sortAsc (reindex t ds)).idx.tail, d ∈ ds :=
    fun d hd => hasc_perm.mem_iff.1 (List.mem_of_mem_tail hd)
  refine ⟨?_, ?_, ?_⟩
  · have hout_nodup : (sortDesc (diffTable op (sortAsc (reindex t ds)))).idx.Nodup :=
      hout_perm.nodup_iff.2 (hs_nodup.sublist (List.tail_sublist _))
    have hout_ge := sortDesc_idx_sorted (diffTable op (sortAsc (reindex t ds)))
    have hand := hout_ge.and hout_nodup
    exact hand.imp (fun hab => lt_of_le_of_ne hab.1 (Ne.symm hab.2))
  · intro dmin hdm hmin hmem
    have hmem_tail : dmin ∈ (sortAsc (reindex t ds)).idx.tail := hout_perm.mem_iff.1 hmem
    cases hcase : (sortAsc (reindex t ds)).idx with
    | nil => rw [hcase] at hmem_tail; exact absurd hmem_tail (List.not_mem_nil _)
    | cons hHead tl =>
      rw [hcase] at hmem_tail hs_sorted hs_nodup
      have hHead_mem_ds : hHead ∈ ds :=
        hasc_perm.mem_iff.1 (by rw [hcase]; exact List.mem_cons_self _ _)
      have h1 : dmin ≤ hHead := hmin hHead hHead_mem_ds
      have h2 : hHead ≤ dmin := (List.pairwise_cons.1 hs_sorted).1 dmin hmem_tail
      have he : hHead = dmin := le_antisymm h2 h1
      exact (List.nodup_cons.1 hs_nodup).1 (he ▸ hmem_tail)
  · intro d hd
    exact htail_sub d (hout_perm.mem_iff.1 hd)

/-- C4.  Both derived return tables are computed only over the dates
present in both RateCurve and AssetPrices (their index is contained in
the inner-joined date set), their date indices are strictly decreasing,
and neither contains the earliest common date, which is consumed by
differencing.  The hypothesis that the asset-price dates are distinct is
the validity assumption on the input files. -/
theorem returns_index_properties (kr assets : DTable) (ha : assets.idx.Nodup)
    (T : DTable) (hT : T = krReturnsOf kr assets ∨ T = assetsReturnsOf kr assets) :
    T.idx.Pairwise (fun a b : ℤ => b < a) ∧
    (∀ dmin ∈ commonDates assets kr,
      (∀ d ∈ commonDates assets kr, dmin ≤ d) → dmin ∉ T.idx) ∧
    (∀ d ∈ T.idx, d ∈ commonDates assets kr) := by
  have hnd : (commonDates assets kr).Nodup := ha.filter _
  cases hT with
  | inl h =>
    subst h
    exact desc_pipeline_props _ kr (commonDates assets kr) hnd
      (fun d hd => of_decide_eq_true (List.mem_filter.1 hd).2)
  | inr h =>
    subst h
    exact desc_pipeline_props _ assets (commonDates assets kr) hnd
      (fun d hd => (List.mem_filter.1 hd).1)

/-- Witness for C4 at a two-date input, on the rate-returns table. -/
theorem returns_index_properties_witness :
    (krReturnsOf (⟨["r"], [((1:ℤ), [(1:ℚ)]), (2, [2])]⟩ : DTable)
        ⟨["A"], [((1:ℤ), [(3:ℚ)]), (2, [4])]⟩).idx.Pairwise (fun a b : ℤ => b < a) ∧
    (∀ dmin ∈ commonDates (⟨["A"], [((1:ℤ), [(3:ℚ)]), (2, [4])]⟩ : DTable)
        ⟨["r"], [((1:ℤ), [(1:ℚ)]), (2, [2])]⟩,
      (∀ d ∈ commonDates (⟨["A"], [((1:ℤ), [(3:ℚ)]), (2, [4])]⟩ : DTable)
          ⟨["r"], [((1:ℤ), [(1:ℚ)]), (2, [2])]⟩, dmin ≤ d) →
      dmin ∉ (krReturnsOf (⟨["r"], [((1:ℤ), [(1:ℚ)]), (2, [2])]⟩ : DTable)
        ⟨["A"], [((1:ℤ), [(3:ℚ)]), (2, [4])]⟩).idx) ∧
    (∀ d ∈ (krReturnsOf (⟨["r"], [((1:ℤ), [(1:ℚ)]), (2, [2])]⟩ : DTable)
        ⟨["A"], [((1:ℤ), [(3:ℚ)]), (2, [4])]⟩).idx,
      d ∈ commonDates (⟨["A"], [((1:ℤ), [(3:ℚ)]), (2, [4])]⟩ : DTable)
        ⟨["r"], [((1:ℤ), [(1:ℚ)]), (2, [2])]⟩) :=
  returns_index_properties ⟨["r"], [((1:ℤ), [(1:ℚ)]), (2, [2])]⟩
    ⟨["A"], [((1:ℤ), [(3:ℚ)]), (2, [4])]⟩
    (by simp [Table.idx])
    _ (Or.inl rfl)

end BondApp
